import Mathlib

/-!
Verification development for the camera-capture / vision-model relay app.

Sources embedded here:
- `src/app/page.tsx` — client page: `capturePhoto` (frame resize, mirroring)
  and `analyzeImage` (streaming decode loop with cancellation).
- `src/app/api/analyze/route.ts` and `src/unnamed/part_000` — the server
  relay `POST` handler (both files share the logic relevant here: the
  image-presence check, the API-key check, the data-URL media-type
  detection and stripping, and the event-frame re-emission loop).

Strings are modelled as `List Char` throughout (the code operates on
already-decoded text: `TextDecoder` with streaming correctly reassembles
multi-byte sequences, so the byte level is not re-modelled).
-/

namespace ExamCheater

/-! ### JSON values, as produced by the platform JSON.parse -/

inductive Json where
  | null
  | bool (b : Bool)
  | num (raw : List Char)
  | str (s : List Char)
  | arr (elems : List Json)
  | obj (fields : List (List Char × Json))

/-- Whitespace accepted by JSON.parse: space, tab, line feed, carriage return. -/
def isWs (c : Char) : Bool :=
  c = ' ' || c = '\t' || c = '\n' || c = '\r'

def skipWs : List Char → List Char
  | [] => []
  | c :: cs => if isWs c then skipWs cs else c :: cs

def isDigitCh (c : Char) : Bool :=
  '0' ≤ c && c ≤ '9'

def hexVal (c : Char) : Option Nat :=
  if '0' ≤ c ∧ c ≤ '9' then some (c.toNat - '0'.toNat)
  else if 'a' ≤ c ∧ c ≤ 'f' then some (c.toNat - 'a'.toNat + 10)
  else if 'A' ≤ c ∧ c ≤ 'F' then some (c.toNat - 'A'.toNat + 10)
  else none

/-- Decoding of the single-character escapes of JSON string literals. -/
def escDecode : Char → Option Char
  | '"' => some '"'
  | '\\' => some '\\'
  | '/' => some '/'
  | 'b' => some (Char.ofNat 8)
  | 'f' => some (Char.ofNat 12)
  | 'n' => some '\n'
  | 'r' => some '\r'
  | 't' => some '\t'
  | _ => none

/-- Body of a JSON string literal, after the opening quote.  Returns the
decoded characters and the input remaining after the closing quote.
Raw control characters are a syntax error, as in JSON.parse.  The fuel is
an upper bound on the number of characters consumed; callers pass
`length + 1`, which never runs out. -/
def parseStrBody : Nat → List Char → List Char → Option (List Char × List Char)
  | 0, _, _ => none
  | _ + 1, _, [] => none
  | n + 1, acc, c :: cs =>
    if c = '"' then some (acc.reverse, cs)
    else if c = '\\' then
      match cs with
      | [] => none
      | e :: cs2 =>
        if e = 'u' then
          match cs2 with
          | h1 :: h2 :: h3 :: h4 :: cs3 =>
            match hexVal h1, hexVal h2, hexVal h3, hexVal h4 with
            | some a, some b, some c4, some d =>
              parseStrBody n (Char.ofNat (((a * 16 + b) * 16 + c4) * 16 + d) :: acc) cs3
            | _, _, _, _ => none
          | _ => none
        else
          match escDecode e with
          | some d => parseStrBody n (d :: acc) cs2
          | none => none
    else if c.toNat < 32 then none
    else parseStrBody n (c :: acc) cs

/-- JSON number grammar: an optional minus sign, an integer part that is
`0` or starts with a nonzero digit, an optional fraction and exponent.
Returns the raw lexeme and the remaining input. -/
def parseNum (cs : List Char) : Option (List Char × List Char) :=
  let (sgn, cs1) : List Char × List Char :=
    match cs with
    | '-' :: r => (['-'], r)
    | _ => ([], cs)
  match cs1 with
  | [] => none
  | c :: r =>
    if ¬ isDigitCh c then none
    else
      let (ip, rest1) : List Char × List Char :=
        if c = '0' then ([c], r)
        else (cs1.takeWhile isDigitCh, cs1.dropWhile isDigitCh)
      let fracDone : Option (List Char × List Char) :=
        match rest1 with
        | '.' :: r2 =>
          let fd := r2.takeWhile isDigitCh
          if fd = [] then none else some (ip ++ '.' :: fd, r2.dropWhile isDigitCh)
        | _ => some (ip, rest1)
      match fracDone with
      | none => none
      | some (mant, rest2) =>
        match rest2 with
        | e :: r3 =>
          if e = 'e' ∨ e = 'E' then
            let (es, r4) : List Char × List Char :=
              match r3 with
              | '+' :: r5 => (['+'], r5)
              | '-' :: r5 => (['-'], r5)
              | _ => ([], r3)
            let ed := r4.takeWhile isDigitCh
            if ed = [] then none
            else some (sgn ++ mant ++ e :: es ++ ed, r4.dropWhile isDigitCh)
          else some (sgn ++ mant, rest2)
        | [] => some (sgn ++ mant, [])

/-- Mode of the recursive-descent JSON reader: a value, the members of an
object being accumulated, or the elements of an array. -/
inductive PMode where
  | value
  | members (acc : List (List Char × Json))
  | elems (acc : List Json)

/-- Recursive-descent JSON reader, structurally recursive on fuel so that
it evaluates inside the kernel.  Fuel decreases on every recursive call;
`2 * length + 4` is always enough. -/
def parseP : Nat → PMode → List Char → Option (Json × List Char)
  | 0, _, _ => none
  | n + 1, PMode.value, cs =>
    match skipWs cs with
    | [] => none
    | c :: cs1 =>
      if c = '"' then
        match parseStrBody (cs1.length + 1) [] cs1 with
        | some (s, rest) => some (Json.str s, rest)
        | none => none
      else if c = '{' then
        match skipWs cs1 with
        | '}' :: rest => some (Json.obj [], rest)
        | _ => parseP n (PMode.members []) cs1
      else if c = '[' then
        match skipWs cs1 with
        | ']' :: rest => some (Json.arr [], rest)
        | _ => parseP n (PMode.elems []) cs1
      else if c = 't' then
        match cs1 with
        | 'r' :: 'u' :: 'e' :: rest => some (Json.bool true, rest)
        | _ => none
      else if c = 'f' then
        match cs1 with
        | 'a' :: 'l' :: 's' :: 'e' :: rest => some (Json.bool false, rest)
        | _ => none
      else if c = 'n' then
        match cs1 with
        | 'u' :: 'l' :: 'l' :: rest => some (Json.null, rest)
        | _ => none
      else if c = '-' ∨ isDigitCh c then
        match parseNum (c :: cs1) with
        | some (raw, rest) => some (Json.num raw, rest)
        | none => none
      else none
  | n + 1, PMode.members acc, cs =>
    match skipWs cs with
    | '"' :: cs1 =>
      match parseStrBody (cs1.length + 1) [] cs1 with
      | some (k, cs2) =>
        match skipWs cs2 with
        | ':' :: cs3 =>
          match parseP n PMode.value cs3 with
          | some (v, cs4) =>
            match skipWs cs4 with
            | ',' :: cs5 => parseP n (PMode.members (acc ++ [(k, v)])) cs5
            | '}' :: cs5 => some (Json.obj (acc ++ [(k, v)]), cs5)
            | _ => none
          | none => none
        | _ => none
      | none => none
    | _ => none
  | n + 1, PMode.elems acc, cs =>
    match parseP n PMode.value cs with
    | some (v, cs1) =>
      match skipWs cs1 with
      | ',' :: cs2 => parseP n (PMode.elems (acc ++ [v])) cs2
      | ']' :: cs2 => some (Json.arr (acc ++ [v]), cs2)
      | _ => none
    | none => none

/-- JSON.parse: read one value and require only whitespace after it. -/
def jsonParse (s : List Char) : Option Json :=
  match parseP (2 * s.length + 4) PMode.value s with
  | some (j, rest) => if skipWs rest = [] then some j else none
  | none => none

/-! ### JavaScript value semantics used by the client loop -/

/-- Last binding wins, matching how JSON.parse assigns duplicate keys. -/
def lookupLast : List (List Char × Json) → List Char → Option Json
  | [], _ => none
  | (k, v) :: rest, key =>
    match lookupLast rest key with
    | some r => some r
    | none => if k = key then some v else none

/-- Property access `j.key`: defined for objects, `undefined` (here `none`)
for every other value. -/
def getField (j : Json) (key : List Char) : Option Json :=
  match j with
  | Json.obj fields => lookupLast fields key
  | _ => none

/-- The mantissa of the raw numeral consists only of zero digits
(sign and decimal point ignored, exponent irrelevant). -/
def numIsZero (raw : List Char) : Bool :=
  (raw.takeWhile (fun c => !(c = 'e' || c = 'E'))).all
    (fun c => c = '0' || c = '-' || c = '.')

/-- JavaScript truthiness of a JSON.parse result. -/
def jsTruthy : Json → Bool
  | Json.null => false
  | Json.bool b => b
  | Json.num raw => ! numIsZero raw
  | Json.str s => ! s.isEmpty
  | Json.arr _ => true
  | Json.obj _ => true

/-- String coercion of a JSON.parse result, as applied by `+=`.  Fuelled so
that it evaluates in the kernel; the fuel bounds the nesting depth, and
callers pass a bound derived from the source text length.  Inside an array
join, `null` renders as the empty string, as in JavaScript. -/
def jsToStringF : Nat → Json → List Char
  | _, Json.null => ['n', 'u', 'l', 'l']
  | _, Json.bool b => if b then ['t', 'r', 'u', 'e'] else ['f', 'a', 'l', 's', 'e']
  | _, Json.num raw => raw
  | _, Json.str s => s
  | 0, Json.arr _ => []
  | n + 1, Json.arr es =>
    List.intercalate [','] (es.map (fun e =>
      match e with
      | Json.null => []
      | e' => jsToStringF n e'))
  | _, Json.obj _ =>
    ['[', 'o', 'b', 'j', 'e', 'c', 't', ' ', 'O', 'b', 'j', 'e', 'c', 't', ']']

/-! ### Client decode loop — `analyzeImage` in `src/app/page.tsx`

The loop reads chunks, decodes each to text, does
`chunk.split('\n')`, and for each line starting with the marker
`data: ` either stops the current batch on `[DONE]` or JSON-parses the
remainder and appends a truthy `text` field to the accumulator. -/

/-- The line marker, the characters of `data: `. -/
def dataMarker : List Char := ['d', 'a', 't', 'a', ':', ' ']

/-- The sentinel payload, the characters of `[DONE]`. -/
def doneMarker : List Char := ['[', 'D', 'O', 'N', 'E', ']']

/-- Result of `chunk.split('\n')`: pieces between line feeds, empty pieces
included, one (possibly empty) piece even for empty input. -/
def splitNlAux : List Char → List Char → List (List Char)
  | [], acc => [acc.reverse]
  | c :: cs, acc =>
    if c = '\n' then acc.reverse :: splitNlAux cs []
    else splitNlAux cs (c :: acc)

def splitNl (cs : List Char) : List (List Char) :=
  splitNlAux cs []

/-- Text contributed by one `data: ` payload: parse it as JSON; on failure
contribute nothing (the catch block skips the line); on success contribute
the `text` field when it is truthy, nothing otherwise.  The coercion fuel
`length + 1` exceeds the nesting depth of any value parsed from `d`. -/
def appendOfData (d : List Char) : List Char :=
  match jsonParse d with
  | some parsed =>
    match getField parsed ['t', 'e', 'x', 't'] with
    | some v => if jsTruthy v then jsToStringF (d.length + 1) v else []
    | none => []
  | none => []

/-- The `for (const line of lines)` body: skip lines without the marker,
stop the batch at the sentinel, otherwise append the decoded text. -/
def processLines (acc : List Char) : List (List Char) → List Char
  | [] => acc
  | line :: rest =>
    if dataMarker.isPrefixOf line then
      let d := line.drop 6
      if d = doneMarker then acc
      else processLines (acc ++ appendOfData d) rest
    else processLines acc rest

/-- Handling of one decoded read chunk. -/
def processChunk (acc : List Char) (chunk : List Char) : List Char :=
  processLines acc (splitNl chunk)

/-- The read loop.  Iteration `i` awaits read number `i`; the abort issued
when a new capture starts becomes visible at the checks from iteration
`abortAt` on (`abortAt = 0`: aborted before the first read returned;
`abortAt > length`: never aborted while the loop ran).  On observing the
abort the loop cancels the reader and breaks without touching the chunk
just read. -/
def readLoop (abortAt : Nat) : List (List Char) → Nat → List Char → List Char
  | [], _, acc => acc
  | chunk :: rest, i, acc =>
    if abortAt ≤ i then acc
    else readLoop abortAt rest (i + 1) (processChunk acc chunk)

/-- User-visible outcome of one `analyzeImage` run. -/
structure AnalyzeResult where
  fullText : List Char
  response : List Char
  loading : Bool
  errorSet : Bool

/-- One `analyzeImage` run over a successful (`res.ok`) response delivered
as `chunks`, with an abort becoming visible at read `abortAt`.
`response` mirrors `fullText`: it is reset to empty at start and set to the
accumulator at every append.  `loading` is cleared after the loop only when
the signal was not aborted (line 178 of `page.tsx`); an aborted run leaves
it as set at start.  `errorSet` is false: this path throws nothing, and the
catch block returns silently on `AbortError`. -/
def analyzeRun (chunks : List (List Char)) (abortAt : Nat) : AnalyzeResult :=
  let acc := readLoop abortAt chunks 0 []
  { fullText := acc
    response := acc
    loading := decide (abortAt ≤ chunks.length)
    errorSet := false }

/-- A run whose `fetch` or first read rejects with `AbortError`: the catch
block checks `err.name === 'AbortError'` and returns, leaving the states
as set at start — loading still true, no error, empty response. -/
def analyzeRunFetchAborted : AnalyzeResult :=
  { fullText := [], response := [], loading := true, errorSet := false }

/-- A run that was never cancelled. -/
def analyzeNoAbort (chunks : List (List Char)) : AnalyzeResult :=
  analyzeRun chunks (chunks.length + 1)

/-- Accumulator of an uncancelled decode of the given chunks. -/
def decodeChunks (chunks : List (List Char)) : List Char :=
  chunks.foldl processChunk []

/-- The abort step at the top of `capturePhoto`: when a controller for a
prior request exists it is aborted; a controller is modelled by its
aborted flag.  `if (abortControllerRef.current) abortControllerRef.current.abort()`. -/
def abortCurrent : Option Bool → Option Bool
  | some _ => some true
  | none => none

/-! ### Server relay — `POST` in `src/app/api/analyze/route.ts` and in
`src/unnamed/part_000` (identical in everything modelled here) -/

/-- The hexadecimal digit used by JSON.stringify escapes. -/
def hexDigit (n : Nat) : Char :=
  if n < 10 then Char.ofNat ('0'.toNat + n) else Char.ofNat ('a'.toNat + n - 10)

/-- Escaping of one character inside a JSON.stringify string literal:
quote and backslash get a backslash, the named control characters get
their short escapes, other control characters get a `\u00xx` escape, and
everything else is emitted literally. -/
def escapeJsonChar (c : Char) : List Char :=
  if c = '"' then ['\\', '"']
  else if c = '\\' then ['\\', '\\']
  else if c = '\n' then ['\\', 'n']
  else if c = '\r' then ['\\', 'r']
  else if c = '\t' then ['\\', 't']
  else if c = Char.ofNat 8 then ['\\', 'b']
  else if c = Char.ofNat 12 then ['\\', 'f']
  else if c.toNat < 32 then
    ['\\', 'u', '0', '0', hexDigit (c.toNat / 16), hexDigit (c.toNat % 16)]
  else [c]

/-- JSON.stringify of a string value. -/
def stringifyStr (s : List Char) : List Char :=
  '"' :: (s.map escapeJsonChar).flatten ++ ['"']

/-- JSON.stringify of the one-field object sent per delta:
`JSON.stringify({ text: chunk })`. -/
def stringifyTextObj (s : List Char) : List Char :=
  "\x7b\"text\":".data ++ stringifyStr s ++ ['}']

/-- One emitted event frame. -/
def frameOfDelta (s : List Char) : List Char :=
  dataMarker ++ stringifyTextObj s ++ ['\n', '\n']

/-- The terminal frame, the characters of `data: [DONE]\n\n`. -/
def doneFrame : List Char :=
  dataMarker ++ doneMarker ++ ['\n', '\n']

/-- An upstream SDK event: either a `content_block_delta` whose delta has
type `text_delta` and carries text, or any other event. -/
inductive UpstreamEvent where
  | textDelta (s : List Char)
  | other

/-- The stream controller of the relay response body. -/
structure StreamController where
  enqueued : List (List Char)
  closed : Bool

def enqueueChunk (ctrl : StreamController) (c : List Char) : StreamController :=
  { ctrl with enqueued := ctrl.enqueued ++ [c] }

/-- The `for await (const event of stream)` loop in the `start` callback:
each text delta is re-encoded and enqueued, every other event is skipped. -/
def relayEvents (ctrl : StreamController) : List UpstreamEvent → StreamController
  | [] => ctrl
  | UpstreamEvent.textDelta s :: rest => relayEvents (enqueueChunk ctrl (frameOfDelta s)) rest
  | UpstreamEvent.other :: rest => relayEvents ctrl rest

/-- The whole `start` callback on the success path: run the loop, enqueue
the terminal frame, close the controller. -/
def relayStart (events : List UpstreamEvent) : StreamController :=
  let c1 := relayEvents { enqueued := [], closed := false } events
  { enqueueChunk c1 doneFrame with closed := true }

/-- The relay response body as one byte-for-byte text. -/
def relayBody (events : List UpstreamEvent) : List Char :=
  (relayStart events).enqueued.flatten

/-- The text deltas of the upstream events, in order. -/
def upstreamTexts : List UpstreamEvent → List (List Char) :=
  List.filterMap fun e =>
    match e with
    | UpstreamEvent.textDelta s => some s
    | UpstreamEvent.other => none

/-- JavaScript word characters, the class `\w` of the data-URL pattern. -/
def isWordChar (c : Char) : Bool :=
  c.isAlphanum || c = '_'

/-- The fixed head of the pattern, the characters of `data:image/`. -/
def dataUrlHead : List Char :=
  ['d', 'a', 't', 'a', ':', 'i', 'm', 'a', 'g', 'e', '/']

/-- The fixed tail of the pattern, the characters of `;base64,`. -/
def b64Mark : List Char :=
  [';', 'b', 'a', 's', 'e', '6', '4', ',']

/-- The anchored pattern `^data:(image\/\w+);base64,` shared by the
`replace` and the `match` call.  Returns the captured media type and the
input with the matched head removed, or nothing when there is no match.
The greedy `\w+` is the maximal run of word characters: any shorter
candidate run is followed by a word character, which can never equal the
required `;`, so no backtracking alternative exists. -/
def matchDataUrl (s : List Char) : Option (List Char × List Char) :=
  if dataUrlHead.isPrefixOf s then
    let run := (s.drop 11).takeWhile isWordChar
    let rest := (s.drop 11).dropWhile isWordChar
    if run = [] then none
    else if b64Mark.isPrefixOf rest then some ("image/".data ++ run, rest.drop 8)
    else none
  else none

/-- `image.replace(/^data:image\/\w+;base64,/, '')`. -/
def base64ImageOf (image : List Char) : List Char :=
  match matchDataUrl image with
  | some r => r.2
  | none => image

/-- `mediaTypeMatch ? mediaTypeMatch[1] : 'image/jpeg'`. -/
def mediaTypeOf (image : List Char) : List Char :=
  match matchDataUrl image with
  | some r => r.1
  | none => "image/jpeg".data

/-- Truthiness of an optional string, as tested by `!image` and
`!process.env.ANTHROPIC_API_KEY`: absent and empty are both falsy. -/
def jsTruthyOptStr : Option (List Char) → Bool
  | none => false
  | some s => ! s.isEmpty

/-- The parsed request body `{ image, prompt }`. -/
structure RequestBody where
  image : Option (List Char)
  prompt : Option (List Char)

/-- What is forwarded upstream from the request. -/
structure UpstreamRequest where
  mediaType : List Char
  data : List Char
  prompt : List Char

/-- The response of the handler: a synchronous JSON error, or the 200
`text/event-stream` response together with the upstream request it relays. -/
inductive ServerResponse where
  | jsonError (status : Nat) (body : List Char)
  | eventStream (req : UpstreamRequest) (body : List Char)

/-- `prompt || defaultPrompt`: an absent or empty prompt falls back. -/
def promptChosen (p : Option (List Char)) (defaultPrompt : List Char) : List Char :=
  match p with
  | some s => if s.isEmpty then defaultPrompt else s
  | none => defaultPrompt

/-- Body of the 400 response, `{"error":"No image provided"}`. -/
def noImageBody : List Char := "\x7b\"error\":\"No image provided\"\x7d".data

/-- Body of the 500 response, `{"error":"API key not configured"}`. -/
def noKeyBody : List Char := "\x7b\"error\":\"API key not configured\"\x7d".data

/-- The `POST` handler on the paths the claims concern, in source order:
the image-presence check, then the credential check, then the data-URL
stripping and media-type detection, then the upstream call and the
streamed relay of its events.  `defaultPrompt` abstracts the fixed
instruction text, which differs between the two route files. -/
def postAnalyze (apiKey : Option (List Char)) (body : RequestBody)
    (defaultPrompt : List Char) (events : List UpstreamEvent) : ServerResponse :=
  if ! jsTruthyOptStr body.image then ServerResponse.jsonError 400 noImageBody
  else if ! jsTruthyOptStr apiKey then ServerResponse.jsonError 500 noKeyBody
  else
    let image := body.image.getD []
    ServerResponse.eventStream
      { mediaType := mediaTypeOf image
        data := base64ImageOf image
        prompt := promptChosen body.prompt defaultPrompt }
      (relayBody events)

/-! ### Frame encoder — `capturePhoto` in `src/app/page.tsx`

Lines 87 to 104 bound the canvas size; lines 109 to 114 mirror the
drawing context for the front camera before `drawImage`. -/

/-- The bound on the longest side, `const MAX_SIZE = 1920`. -/
def MAX_SIZE : Nat := 1920

/-- `Math.round(num / den)` for nonnegative integers: floor of the ratio
plus one half, with ties rounded up.  Exact for the double-precision
evaluation in the source at camera-scale dimensions: the products are
below `2 ^ 53`, and the quotient is never close enough to a tie for the
one-ulp division error to change the rounding. -/
def mathRoundDiv (num den : Nat) : Nat :=
  (2 * num + den) / (2 * den)

/-- The resize step of `capturePhoto`: when either dimension exceeds the
bound, the longer side becomes the bound and the other is scaled by the
same factor and rounded; otherwise the dimensions pass through. -/
def resizeDims (w h : Nat) : Nat × Nat :=
  if w > MAX_SIZE ∨ h > MAX_SIZE then
    if w > h then (MAX_SIZE, mathRoundDiv (h * MAX_SIZE) w)
    else (mathRoundDiv (w * MAX_SIZE) h, MAX_SIZE)
  else (w, h)

/-- The camera facing selected in the page. -/
inductive Facing where
  | environment
  | user

/-- The drawing-context transform state that `translate` and `scale`
maintain: with only those two operations applied, the point map stays
axis-aligned, `x` goes to `sx * x + tx` and `y` to `sy * y + ty`. -/
structure Ctx2d where
  sx : Int
  tx : Int
  sy : Int
  ty : Int

/-- The identity transform of a fresh context. -/
def ctxId : Ctx2d := { sx := 1, tx := 0, sy := 1, ty := 0 }

/-- `ctx.translate(dx, dy)` composes on the right of the current map. -/
def ctxTranslate (c : Ctx2d) (dx dy : Int) : Ctx2d :=
  { c with tx := c.tx + c.sx * dx, ty := c.ty + c.sy * dy }

/-- `ctx.scale(fx, fy)` composes on the right of the current map. -/
def ctxScale (c : Ctx2d) (fx fy : Int) : Ctx2d :=
  { c with sx := c.sx * fx, sy := c.sy * fy }

def mapPtX (c : Ctx2d) (x : Int) : Int := c.sx * x + c.tx
def mapPtY (c : Ctx2d) (y : Int) : Int := c.sy * y + c.ty

/-- Destination column of source pixel column `u` under the transform:
the unit interval from `u` to `u + 1` maps to a unit interval (the scales
here are `1` or `-1`), whose integer column is the smaller endpoint image. -/
def destCol (c : Ctx2d) (u : Int) : Int :=
  min (mapPtX c u) (mapPtX c (u + 1))

/-- Destination row of source pixel row `v`, as for columns. -/
def destRow (c : Ctx2d) (v : Int) : Int :=
  min (mapPtY c v) (mapPtY c (v + 1))

/-- The context state at the `drawImage` call: for the front camera the
page runs `ctx.translate(canvas.width, 0)` then `ctx.scale(-1, 1)`; for
the back camera the context is untouched. -/
def captureCtx (facing : Facing) (w : Nat) : Ctx2d :=
  match facing with
  | Facing.user => ctxScale (ctxTranslate ctxId (w : Int) 0) (-1) 1
  | Facing.environment => ctxId

/-- `ctx.drawImage` rasterized through the current transform: the pixel at
destination position `x, y` is the source pixel whose unit square lands
there, found by scanning the source grid (`drawImage` also performs the
resampling to `w × h`; `frame` is the frame content at that resolution). -/
def drawImagePixel {α : Type} (c : Ctx2d) (w h : Nat) (frame : Nat → Nat → α)
    (x y : Int) : Option α :=
  match (List.range w).find? (fun (u : Nat) => decide (destCol c u = x)),
        (List.range h).find? (fun (v : Nat) => decide (destRow c v = y)) with
  | some u, some v => some (frame u v)
  | _, _ => none

/-- The encoded capture as a pixel function of the destination grid. -/
def capturedImage {α : Type} (facing : Facing) (w h : Nat)
    (frame : Nat → Nat → α) (x y : Int) : Option α :=
  drawImagePixel (captureCtx facing w) w h frame x y

/-! ### Helper lemmas -/

lemma isPrefixOf_append_self (l x : List Char) : l.isPrefixOf (l ++ x) = true := by
  induction l with
  | nil => simp
  | cons c t ih => simp [List.cons_append, List.isPrefixOf_cons₂, ih]

lemma takeWhile_append_all {p : Char → Bool} :
    ∀ (l : List Char), (∀ c ∈ l, p c = true) →
      ∀ (c0 : Char), p c0 = false → ∀ (r : List Char),
        (l ++ c0 :: r).takeWhile p = l ∧ (l ++ c0 :: r).dropWhile p = c0 :: r := by
  intro l
  induction l with
  | nil =>
    intro _ c0 hc0 r
    simp [List.takeWhile, List.dropWhile, hc0]
  | cons a t ih =>
    intro hall c0 hc0 r
    have ha : p a = true := hall a (by simp)
    have ht : ∀ c ∈ t, p c = true := fun c hc => hall c (by simp [hc])
    have := ih ht c0 hc0 r
    simp [List.takeWhile, List.dropWhile, ha, this.1, this.2]

lemma takeWhile_append_of_not_all {p : Char → Bool} :
    ∀ (l : List Char), l.all p = false → ∀ (q : List Char),
      (l ++ q).takeWhile p = l.takeWhile p
        ∧ (l ++ q).dropWhile p = l.dropWhile p ++ q := by
  intro l
  induction l with
  | nil => intro h; simp at h
  | cons a t ih =>
    intro hall q
    by_cases ha : p a = true
    · have ht : t.all p = false := by simpa [List.all_cons, ha] using hall
      have := ih ht q
      simp [List.takeWhile, List.dropWhile, ha, this.1, this.2]
    · have ha' : p a = false := by revert ha; cases p a <;> simp
      simp [List.takeWhile, List.dropWhile, ha']

lemma dropWhile_head_not {p : Char → Bool} :
    ∀ (l : List Char), l.all p = false →
      ∃ c t, l.dropWhile p = c :: t ∧ p c = false ∧ c ∈ l := by
  intro l
  induction l with
  | nil => intro h; simp at h
  | cons a t ih =>
    intro hall
    by_cases ha : p a = true
    · have ht : t.all p = false := by simpa [List.all_cons, ha] using hall
      obtain ⟨c, t', heq, hc, hmem⟩ := ih ht
      exact ⟨c, t', by simp [List.dropWhile, ha, heq], hc, by simp [hmem]⟩
    · have ha' : p a = false := by revert ha; cases p a <;> simp
      exact ⟨a, t, by simp [List.dropWhile, ha'], ha', by simp⟩

lemma readLoop_eq_take (abortAt : Nat) :
    ∀ (l : List (List Char)) (i : Nat) (acc : List Char),
      readLoop abortAt l i acc = (l.take (abortAt - i)).foldl processChunk acc := by
  intro l
  induction l with
  | nil => intro i acc; simp [readLoop]
  | cons chunk rest ih =>
    intro i acc
    by_cases h : abortAt ≤ i
    · have : abortAt - i = 0 := by omega
      simp [readLoop, h, this]
    · have hlt : i < abortAt := by omega
      have : abortAt - i = (abortAt - (i + 1)) + 1 := by omega
      rw [readLoop, if_neg h, ih (i + 1), this, List.take_succ_cons, List.foldl_cons]

lemma relayEvents_enqueued :
    ∀ (events : List UpstreamEvent) (ctrl : StreamController),
      (relayEvents ctrl events).enqueued
          = ctrl.enqueued ++ (upstreamTexts events).map frameOfDelta
        ∧ (relayEvents ctrl events).closed = ctrl.closed := by
  intro events
  induction events with
  | nil => intro ctrl; simp [relayEvents, upstreamTexts]
  | cons e rest ih =>
    intro ctrl
    cases e with
    | textDelta s =>
      have := ih (enqueueChunk ctrl (frameOfDelta s))
      simp only [relayEvents, this.1, this.2, enqueueChunk, upstreamTexts] at *
      simp [upstreamTexts, List.filterMap_cons, this.1, this.2]
    | other =>
      have := ih ctrl
      simp [relayEvents, upstreamTexts, List.filterMap_cons, this.1, this.2]

lemma find_eq_some_of_unique {p : Nat → Bool} :
    ∀ (l : List Nat) (u : Nat), u ∈ l → p u = true →
      (∀ v ∈ l, p v = true → v = u) → l.find? p = some u := by
  intro l
  induction l with
  | nil => intro u hu; simp at hu
  | cons a t ih =>
    intro u hu hpu huniq
    by_cases ha : p a = true
    · have hau : a = u := huniq a (by simp) ha
      rw [List.find?_cons_of_pos _ ha, hau]
    · have ha' : p a = false := by revert ha; cases p a <;> simp
      have hut : u ∈ t := by
        rcases List.mem_cons.mp hu with h | h
        · exact absurd (h ▸ hpu) (by simp [ha'])
        · exact h
      rw [List.find?_cons_of_neg _ (by simp [ha'])]
      exact ih u hut hpu (fun v hv => huniq v (by simp [hv]))

lemma mathRoundDiv_scale_le (m M k : Nat) (h : m ≤ M) (hM : 0 < M) :
    mathRoundDiv (m * k) M ≤ k := by
  unfold mathRoundDiv
  have h2M : 0 < 2 * M := by omega
  have hle : 2 * (m * k) ≤ 2 * (M * k) :=
    Nat.mul_le_mul_left 2 (Nat.mul_le_mul_right k h)
  have hlt : 2 * (m * k) + M < (k + 1) * (2 * M) := by
    calc 2 * (m * k) + M ≤ 2 * (M * k) + M := Nat.add_le_add_right hle M
      _ < 2 * (M * k) + 2 * M := by omega
      _ = (k + 1) * (2 * M) := by ring
  have := (Nat.div_lt_iff_lt_mul h2M).mpr hlt
  omega

lemma matchDataUrl_recognized (sub rest : List Char) (hne : sub ≠ [])
    (hall : ∀ c ∈ sub, isWordChar c = true) :
    matchDataUrl (dataUrlHead ++ (sub ++ (b64Mark ++ rest)))
      = some ("image/".data ++ sub, rest) := by
  have hpre : dataUrlHead.isPrefixOf (dataUrlHead ++ (sub ++ (b64Mark ++ rest))) = true :=
    isPrefixOf_append_self _ _
  have hdrop : (dataUrlHead ++ (sub ++ (b64Mark ++ rest))).drop 11 = sub ++ (b64Mark ++ rest) :=
    rfl
  have hsemi : isWordChar ';' = false := rfl
  have hsplit := takeWhile_append_all sub hall ';' hsemi ("base64,".data ++ rest)
  have hb : b64Mark ++ rest = ';' :: ("base64,".data ++ rest) := rfl
  have hpre2 : b64Mark.isPrefixOf (b64Mark ++ rest) = true := isPrefixOf_append_self _ _
  unfold matchDataUrl
  rw [hpre, if_pos rfl, hdrop]
  rw [hb] at *
  rw [hsplit.1, hsplit.2, if_neg hne, ← hb, hpre2, if_pos rfl]
  rfl

lemma matchDataUrl_unrecognized (sub rest : List Char)
    (hbad : sub.all isWordChar = false) (hsemi : ∀ c ∈ sub, c ≠ ';') :
    matchDataUrl (dataUrlHead ++ (sub ++ (b64Mark ++ rest))) = none := by
  have hpre : dataUrlHead.isPrefixOf (dataUrlHead ++ (sub ++ (b64Mark ++ rest))) = true :=
    isPrefixOf_append_self _ _
  have hdrop : (dataUrlHead ++ (sub ++ (b64Mark ++ rest))).drop 11 = sub ++ (b64Mark ++ rest) :=
    rfl
  have hsplit := takeWhile_append_of_not_all sub hbad (b64Mark ++ rest)
  obtain ⟨c, t, hdw, hc, hmem⟩ := dropWhile_head_not sub hbad
  unfold matchDataUrl
  rw [hpre, if_pos rfl, hdrop, hsplit.1, hsplit.2, hdw]
  by_cases hrun : sub.takeWhile isWordChar = []
  · rw [if_pos hrun]
  · rw [if_neg hrun]
    have hcne : (';' == c) = false := by
      rw [beq_eq_false_iff_ne]
      exact fun h => (hsemi c hmem) h.symm
    have : b64Mark.isPrefixOf (c :: t ++ (b64Mark ++ rest)) = false := by
      simp only [b64Mark, List.cons_append, List.isPrefixOf_cons₂, hcne,
        Bool.false_and]
    rw [this]
    rfl

/-! ### Claim theorems -/

/-- C1: for a server stream delivering the frames
`data: {"text":"Hel"}\n\n`, `data: {"text":"lo"}\n\n`, `data: [DONE]\n\n`,
the decode loop of `analyzeImage` ends with the response accumulator equal
to exactly `Hello` and the loading flag cleared. -/
theorem c1_frames_decode_to_hello :
    (analyzeNoAbort ["data: \x7b\"text\":\"Hel\"\x7d\n\n".data,
        "data: \x7b\"text\":\"lo\"\x7d\n\n".data,
        "data: [DONE]\n\n".data]).fullText = "Hello".data
    ∧ (analyzeNoAbort ["data: \x7b\"text\":\"Hel\"\x7d\n\n".data,
        "data: \x7b\"text\":\"lo\"\x7d\n\n".data,
        "data: [DONE]\n\n".data]).loading = false :=
  ⟨rfl, rfl⟩

/-- C2 evidence: the decode loop splits each read chunk on line feeds
without buffering a trailing partial line, so the accumulated text depends
on the chunking.  Delivering the single frame `data: {"text":"Hi"}\n\n`
split mid-line as `data: {"te` and `xt":"Hi"}\n\n` loses the text
entirely, while the frame-aligned delivery of the same bytes yields `Hi`. -/
theorem c2_split_boundary_loses_text :
    decodeChunks ["data: \x7b\"te".data, "xt\":\"Hi\"\x7d\n\n".data] = []
    ∧ decodeChunks ["data: \x7b\"text\":\"Hi\"\x7d\n\n".data] = "Hi".data :=
  ⟨rfl, rfl⟩

/-- C3: for every upstream event sequence the relay body is exactly the
frames `data: <JSON.stringify({text: delta})>\n\n`, one per upstream text
delta in upstream order, followed by the single terminal frame
`data: [DONE]\n\n`, and the stream is then closed. -/
theorem c3_relay_body_is_frames (events : List UpstreamEvent) :
    relayBody events = ((upstreamTexts events).map frameOfDelta).flatten ++ doneFrame
    ∧ (relayStart events).closed = true := by
  have h := relayEvents_enqueued events { enqueued := [], closed := false }
  constructor
  · rw [relayBody, relayStart]
    simp only [enqueueChunk, h.1, List.nil_append]
    rw [List.flatten_append]
    simp
  · rfl

/-- C4: when a new capture starts while a request is still streaming, the
prior controller is aborted (`abortCurrent`), the aborted run appends only
the chunks whose read completed before the abort became visible — the
accumulator equals the uncancelled decode of `chunks.take abortAt`, so no
text of the old request lands after the new capture starts — and neither
the abort-observed break path nor the `AbortError` catch path ever sets
the user-visible error state. -/
theorem c4_cancel_isolates (chunks : List (List Char)) (abortAt : Nat) (c : Bool) :
    (analyzeRun chunks abortAt).fullText = decodeChunks (chunks.take abortAt)
    ∧ (analyzeRun chunks abortAt).errorSet = false
    ∧ analyzeRunFetchAborted.errorSet = false
    ∧ abortCurrent (some c) = some true := by
  refine ⟨?_, rfl, rfl, rfl⟩
  show readLoop abortAt chunks 0 [] = decodeChunks (chunks.take abortAt)
  rw [readLoop_eq_take, Nat.sub_zero, decodeChunks]

/-- C5: a request carrying an image while the upstream credential is
missing gets status 500 with body `{"error":"API key not configured"}`.
The right-hand side is a constant, independent of the image text, so the
credential check decides the response before any decoding or stripping of
the image payload is reached (those occur later in `postAnalyze`, in
source order). -/
theorem c5_missing_key_500 (apiKey : Option (List Char)) (body : RequestBody)
    (defaultPrompt : List Char) (events : List UpstreamEvent)
    (himg : jsTruthyOptStr body.image = true)
    (hkey : jsTruthyOptStr apiKey = false) :
    postAnalyze apiKey body defaultPrompt events
      = ServerResponse.jsonError 500 noKeyBody := by
  rw [postAnalyze, himg, hkey]
  rfl

theorem c5_missing_key_500_witness :
    jsTruthyOptStr (some "data:image/jpeg;base64,AAAA".data) = true
    ∧ jsTruthyOptStr (none : Option (List Char)) = false
    ∧ postAnalyze none ⟨some "data:image/jpeg;base64,AAAA".data, none⟩ [] []
        = ServerResponse.jsonError 500 noKeyBody :=
  ⟨rfl, rfl,
    c5_missing_key_500 none ⟨some "data:image/jpeg;base64,AAAA".data, none⟩ [] [] rfl rfl⟩

/-- C6: an image whose head matches the recognized pattern, such as
`data:image/png;base64,AAAA`, makes the server resolve the upstream media
type to `image/<subtype>` and forward the payload with the head removed;
an image on which the pattern does not match falls back to `image/jpeg`. -/
theorem c6_media_type_resolution (apiKey : List Char) (p : Option (List Char))
    (dp : List Char) (events : List UpstreamEvent) (sub rest : List Char)
    (hkey : apiKey ≠ []) (hne : sub ≠ [])
    (hall : ∀ c ∈ sub, isWordChar c = true) :
    postAnalyze (some apiKey) ⟨some (dataUrlHead ++ (sub ++ (b64Mark ++ rest))), p⟩ dp events
        = ServerResponse.eventStream
            { mediaType := "image/".data ++ sub, data := rest
              prompt := promptChosen p dp }
            (relayBody events)
    ∧ (∀ img : List Char, matchDataUrl img = none
        → mediaTypeOf img = "image/jpeg".data) := by
  constructor
  · have hmatch := matchDataUrl_recognized sub rest hne hall
    have hk : jsTruthyOptStr (some apiKey) = true := by
      cases apiKey with
      | nil => exact absurd rfl hkey
      | cons a t => rfl
    have himg : jsTruthyOptStr (some (dataUrlHead ++ (sub ++ (b64Mark ++ rest)))) = true := rfl
    simp [postAnalyze, hk, himg, mediaTypeOf, base64ImageOf, hmatch]
  · intro img hnone
    simp [mediaTypeOf, hnone]

theorem c6_media_type_resolution_witness :
    "k".data ≠ [] ∧ "png".data ≠ [] ∧ (∀ c ∈ "png".data, isWordChar c = true)
    ∧ postAnalyze (some "k".data)
          ⟨some (dataUrlHead ++ ("png".data ++ (b64Mark ++ "AAAA".data))), none⟩ [] []
        = ServerResponse.eventStream
            { mediaType := "image/".data ++ "png".data, data := "AAAA".data
              prompt := promptChosen none [] }
            (relayBody []) :=
  ⟨by decide, by decide, by decide,
    (c6_media_type_resolution "k".data none [] [] "png".data "AAAA".data
      (by decide) (by decide) (by decide)).1⟩

/-- C7: a frame whose longer side exceeds 1920 is resized so that its
longer side equals exactly 1920 and its shorter side is the original
shorter side scaled by the same factor, rounded to the nearest integer;
a frame within the bound passes through unresized. -/
theorem c7_resize_longest_side (w h : Nat) :
    (MAX_SIZE < max w h →
      max (resizeDims w h).1 (resizeDims w h).2 = MAX_SIZE
        ∧ min (resizeDims w h).1 (resizeDims w h).2
            = mathRoundDiv (min w h * MAX_SIZE) (max w h))
    ∧ (max w h ≤ MAX_SIZE → resizeDims w h = (w, h)) := by
  constructor
  · intro hbig
    by_cases hwh : w > h
    · have hmax : max w h = w := Nat.max_eq_left (Nat.le_of_lt hwh)
      have hmin : min w h = h := Nat.min_eq_right (Nat.le_of_lt hwh)
      have hw : MAX_SIZE < w := hmax ▸ hbig
      have hcond : w > MAX_SIZE ∨ h > MAX_SIZE := Or.inl hw
      have hr : mathRoundDiv (h * MAX_SIZE) w ≤ MAX_SIZE :=
        mathRoundDiv_scale_le h w MAX_SIZE (Nat.le_of_lt hwh) (by omega)
      unfold resizeDims
      rw [if_pos hcond, if_pos hwh]
      exact ⟨Nat.max_eq_left hr, by rw [hmin, hmax]; exact Nat.min_eq_right hr⟩
    · have hle : w ≤ h := Nat.le_of_not_lt hwh
      have hmax : max w h = h := Nat.max_eq_right hle
      have hmin : min w h = w := Nat.min_eq_left hle
      have hh : MAX_SIZE < h := hmax ▸ hbig
      have hcond : w > MAX_SIZE ∨ h > MAX_SIZE := Or.inr hh
      have hr : mathRoundDiv (w * MAX_SIZE) h ≤ MAX_SIZE :=
        mathRoundDiv_scale_le w h MAX_SIZE hle (by omega)
      unfold resizeDims
      rw [if_pos hcond, if_neg hwh]
      exact ⟨Nat.max_eq_right hr, by rw [hmin, hmax]; exact Nat.min_eq_left hr⟩
  · intro hsmall
    have hboth := Nat.max_le.mp hsmall
    have hcond : ¬ (w > MAX_SIZE ∨ h > MAX_SIZE) := by
      push_neg
      omega
    unfold resizeDims
    rw [if_neg hcond]

theorem c7_resize_longest_side_witness :
    (MAX_SIZE < max 3840 2160
      ∧ max (resizeDims 3840 2160).1 (resizeDims 3840 2160).2 = MAX_SIZE
      ∧ min (resizeDims 3840 2160).1 (resizeDims 3840 2160).2
          = mathRoundDiv (min 3840 2160 * MAX_SIZE) (max 3840 2160))
    ∧ (max 1280 960 ≤ MAX_SIZE ∧ resizeDims 1280 960 = (1280, 960)) :=
  ⟨⟨by decide,
     ((c7_resize_longest_side 3840 2160).1 (by decide)).1,
     ((c7_resize_longest_side 3840 2160).1 (by decide)).2⟩,
   ⟨by decide, (c7_resize_longest_side 1280 960).2 (by decide)⟩⟩

/-- C8: for a front-camera capture the encoded pixel grid is the
horizontal mirror of the raw frame — the composite of
`translate(width, 0)` and `scale(-1, 1)` sends source column `u` to
destination column `width - 1 - u` — while a back-camera capture is the
identity on the frame. -/
theorem c8_mirror_front_only {α : Type} (frame : Nat → Nat → α) (w h x y : Nat)
    (hx : x < w) (hy : y < h) :
    capturedImage Facing.user w h frame x y = some (frame (w - 1 - x) y)
    ∧ capturedImage Facing.environment w h frame x y = some (frame x y) := by
  have hcolu : ∀ u : Nat, destCol (captureCtx Facing.user w) u = (w : Int) - u - 1 := by
    intro u
    simp only [captureCtx, ctxScale, ctxTranslate, ctxId, destCol, mapPtX]
    omega
  have hcole : ∀ u : Nat, destCol (captureCtx Facing.environment w) u = (u : Int) := by
    intro u
    simp only [captureCtx, ctxId, destCol, mapPtX]
    omega
  have hrow : ∀ (f : Facing) (v : Nat), destRow (captureCtx f w) v = (v : Int) := by
    intro f v
    cases f <;>
      simp only [captureCtx, ctxScale, ctxTranslate, ctxId, destRow, mapPtY] <;>
      omega
  have hfrow : ∀ f : Facing,
      (List.range h).find? (fun (v : Nat) => decide (destRow (captureCtx f w) v = (y : Int)))
        = some y := by
    intro f
    apply find_eq_some_of_unique
    · exact List.mem_range.mpr hy
    · simp [hrow]
    · intro v hv hpv
      have : destRow (captureCtx f w) v = (y : Int) := by
        simpa using hpv
      rw [hrow] at this
      exact_mod_cast this
  constructor
  · have hfcol : (List.range w).find?
        (fun (u : Nat) => decide (destCol (captureCtx Facing.user w) u = (x : Int)))
          = some (w - 1 - x) := by
      apply find_eq_some_of_unique
      · exact List.mem_range.mpr (by omega)
      · simp only [decide_eq_true_eq, hcolu]
        omega
      · intro v hv hpv
        have hveq : destCol (captureCtx Facing.user w) v = (x : Int) := by
          simpa using hpv
        rw [hcolu] at hveq
        have : v < w := List.mem_range.mp hv
        omega
    rw [capturedImage, drawImagePixel, hfcol, hfrow]
  · have hfcol : (List.range w).find?
        (fun (u : Nat) => decide (destCol (captureCtx Facing.environment w) u = (x : Int)))
          = some x := by
      apply find_eq_some_of_unique
      · exact List.mem_range.mpr hx
      · simp [hcole]
      · intro v hv hpv
        have hveq : destCol (captureCtx Facing.environment w) v = (x : Int) := by
          simpa using hpv
        rw [hcole] at hveq
        exact_mod_cast hveq
    rw [capturedImage, drawImagePixel, hfcol, hfrow]

theorem c8_mirror_front_only_witness :
    capturedImage Facing.user 3 2 (fun u v => (u, v)) 0 1 = some (3 - 1 - 0, 1)
    ∧ capturedImage Facing.environment 3 2 (fun u v => (u, v)) 0 1 = some (0, 1) :=
  c8_mirror_front_only (fun u v => (u, v)) 3 2 0 1 (by decide) (by decide)

/-- C9: a line whose `data: ` payload is not valid JSON (and is not the
`[DONE]` sentinel, which the preceding branch handles) is skipped: the
parse failure is caught, the accumulator is unchanged by the line, and the
loop continues with the remaining lines. -/
theorem c9_invalid_json_line_skipped (s : List Char) (rest : List (List Char))
    (acc : List Char) (hparse : jsonParse s = none) (hnd : s ≠ doneMarker) :
    processLines acc ((dataMarker ++ s) :: rest) = processLines acc rest := by
  have hdrop : (dataMarker ++ s).drop 6 = s := rfl
  have happ : appendOfData s = [] := by
    rw [appendOfData, hparse]
  simp only [processLines, isPrefixOf_append_self, if_true, hdrop, if_neg hnd, happ,
    List.append_nil]

theorem c9_invalid_json_line_skipped_witness :
    jsonParse "not-json".data = none
    ∧ processLines [] [dataMarker ++ "not-json".data] = processLines [] [] :=
  ⟨rfl, c9_invalid_json_line_skipped "not-json".data [] [] rfl (by decide)⟩

/-- C10: an image carrying a data-URL head whose subtype contains a
character outside `\w` (such as `svg+xml`) fails the shared pattern, so
the media type falls back to `image/jpeg` AND the payload is forwarded
with the head still attached — detection and stripping use the same
pattern, so an unrecognized head is never stripped. -/
theorem c10_unrecognized_head_kept (apiKey : List Char) (p : Option (List Char))
    (dp : List Char) (events : List UpstreamEvent) (sub rest : List Char)
    (hkey : apiKey ≠ [])
    (hbad : sub.all isWordChar = false)
    (hsemi : ∀ c ∈ sub, c ≠ ';') :
    postAnalyze (some apiKey) ⟨some (dataUrlHead ++ (sub ++ (b64Mark ++ rest))), p⟩ dp events
      = ServerResponse.eventStream
          { mediaType := "image/jpeg".data
            data := dataUrlHead ++ (sub ++ (b64Mark ++ rest))
            prompt := promptChosen p dp }
          (relayBody events) := by
  have hmatch := matchDataUrl_unrecognized sub rest hbad hsemi
  have hk : jsTruthyOptStr (some apiKey) = true := by
    cases apiKey with
    | nil => exact absurd rfl hkey
    | cons a t => rfl
  have himg : jsTruthyOptStr (some (dataUrlHead ++ (sub ++ (b64Mark ++ rest)))) = true := rfl
  simp [postAnalyze, hk, himg, mediaTypeOf, base64ImageOf, hmatch]

theorem c10_unrecognized_head_kept_witness :
    "k".data ≠ [] ∧ "svg+xml".data.all isWordChar = false
    ∧ (∀ c ∈ "svg+xml".data, c ≠ ';')
    ∧ postAnalyze (some "k".data)
          ⟨some (dataUrlHead ++ ("svg+xml".data ++ (b64Mark ++ "AAAA".data))), none⟩ [] []
        = ServerResponse.eventStream
            { mediaType := "image/jpeg".data
              data := dataUrlHead ++ ("svg+xml".data ++ (b64Mark ++ "AAAA".data))
              prompt := promptChosen none [] }
            (relayBody []) :=
  ⟨by decide, by decide, by decide,
    c10_unrecognized_head_kept "k".data none [] [] "svg+xml".data "AAAA".data
      (by decide) (by decide) (by decide)⟩

end ExamCheater
